import Mathlib

/-!
Shallow embedding of `scripts/homedepot_scraper.py` (penny-deal scraper).

Python strings are modelled as `List Char` (`PyStr`); `str.replace(c, "")`
becomes a filter, `str.strip()` drops whitespace at both ends, and string
concatenation is list append.  Python `float` values arising from price
strings are modelled as rationals (`ℚ`), so decimal arithmetic is exact.
Fallible network and file-system effects are modelled with explicit
outcome types and an explicit store from paths to file contents.
-/

abbrev PyStr := List Char

/-- Model of Python `s.replace(old, "")` for a one-character `old`:
every occurrence of the character is removed. -/
def pyReplaceChar (old : Char) (s : PyStr) : PyStr :=
  s.filter (fun c => c ≠ old)

/-- Model of Python `s.strip()`: drop whitespace from both ends. -/
def pyStrip (s : PyStr) : PyStr :=
  ((s.dropWhile Char.isWhitespace).reverse.dropWhile Char.isWhitespace).reverse

/-- Value of a digit string read left to right, as in positional notation. -/
def digitsVal (cs : PyStr) : ℕ :=
  cs.foldl (fun a c => 10 * a + (c.toNat - ('0').toNat)) 0

/-- Core of Python `float` on a sign-free numeral: an optional integer part,
optionally followed by a dot and a fractional part, with at least one digit
overall.  Exponent notation, `inf`/`nan` and underscore digit grouping are
outside the domain of price strings and are not modelled; on those inputs the
model returns `none` where CPython would accept some of them. -/
def decimalCore (cs : PyStr) : Option ℚ :=
  let ip := cs.takeWhile Char.isDigit
  match cs.dropWhile Char.isDigit with
  | [] => if ip = [] then none else some ((digitsVal ip : ℚ))
  | c :: fp =>
      if c = '.' then
        if fp.all Char.isDigit then
          if ip = [] && fp = [] then none
          else some ((digitsVal ip : ℚ) + (digitsVal fp : ℚ) / (10 : ℚ) ^ fp.length)
        else none
      else none

/-- Model of Python `float(s)` on decimal numerals with an optional sign.
A parse failure (CPython `ValueError`) is `none`. -/
def pyFloat (cs : PyStr) : Option ℚ :=
  match cs with
  | [] => none
  | c :: rest =>
      if c = '+' then decimalCore rest
      else if c = '-' then (decimalCore rest).map (fun q => -q)
      else decimalCore cs

/-- `normalize_price` from the source: remove `$` and `,`, strip whitespace,
return `none` for an empty remainder, otherwise parse as a float, with a
parse failure caught and turned into `none`.  The function is total, so the
Python guarantee that it never raises is inherent in the model. -/
def normalize_price (raw_price : PyStr) : Option ℚ :=
  let cleaned := pyStrip (pyReplaceChar ',' (pyReplaceChar '$' raw_price))
  if cleaned = [] then none
  else pyFloat cleaned

def BASE_URL : PyStr := ("https://www.homedepot.ca").toList

def CLEARANCE_URL : PyStr :=
  ("https://www.homedepot.ca/en/home/categories/all/collections/clearance.html").toList

def OUTPUT_PATH : PyStr := ("data/homedepot/liquidations.json").toList

/-- `build_url` from the source.  Python truthiness of `store_id` makes both
`None` and the empty string fall back to the plain clearance URL. -/
def build_url (store_id : Option PyStr) : PyStr :=
  match store_id with
  | some sid => if sid = [] then CLEARANCE_URL else CLEARANCE_URL ++ ("?store=").toList ++ sid
  | none => CLEARANCE_URL

/-- One product card inside the product grid, as seen by the CSS selectors
of `scrape_deals`: the text nodes matched for the title, price, badge and
discount fields, and the first `a::attr(href)` value, `none` when the card
has no anchor with an href. -/
structure CardModel where
  titleTexts : List PyStr
  priceTexts : List PyStr
  badgeTexts : List PyStr
  discountTexts : List PyStr
  href : Option PyStr
deriving DecidableEq

/-- A parsed page (`Selector(response.text)`): the product grid with its
cards in document order, or `none` when no element matches the grid
selector. -/
structure PageModel where
  grid : Option (List CardModel)
deriving DecidableEq

/-- Cards matched by `"[data-testid='product-grid'] [data-testid='product-card']"`:
the document-order card list, empty when the grid container is absent. -/
def gridCards (page : PageModel) : List CardModel :=
  match page.grid with
  | none => []
  | some cs => cs

/-- One scraped record, the dict appended to `results` in `scrape_deals`. -/
structure Deal where
  title : PyStr
  price : PyStr
  discount : PyStr
  url : PyStr
  scraped_at : PyStr
deriving DecidableEq

/-- Non-timeout fetch exceptions: `httpx.HTTPStatusError` carrying the
response status (raised by `raise_for_status` on a non-success status), or
another transport error. -/
inductive FetchErr where
  | httpStatus (status : ℕ)
  | network (msg : PyStr)
deriving DecidableEq

/-- Outcome of one call `client.get(url)` followed by `raise_for_status()`:
a parsed page on success (the source feeds `response.text` to `Selector`),
an `httpx.TimeoutException`, or a non-timeout failure. -/
inductive FetchOutcome where
  | success (page : PageModel)
  | timeout
  | failure (err : FetchErr)
deriving DecidableEq

/-- Error with which `fetch_with_retries` itself raises: either the final
`TimeoutException` re-raised after the retry budget is exhausted, or any
non-timeout exception, which is never caught. -/
inductive FetchFailure where
  | timeout
  | other (err : FetchErr)
deriving DecidableEq

/-- Observable trace of one `fetch_with_retries` run: its outcome, the
number of `client.get` calls made, and the list of `time.sleep` durations in
order. -/
structure FetchTrace where
  outcome : Except FetchFailure PageModel
  calls : ℕ
  sleeps : List ℚ

/-- Loop body of `fetch_with_retries`.  In the source, `attempt` counts the
timeouts seen so far and a new timeout raises when `attempt + 1 > retries`;
here `remaining = retries - attempt` is the remaining timeout budget, so the
loop is structural.  The environment `client` gives the outcome of the k-th
`client.get` call (0-based); only timeouts continue the loop, so the k-th
call happens with `attempt = k`.  Before the retry after the k-th timeout
the source sleeps `backoff * k` seconds (`k = attempt` after increment). -/
def fetchLoop (client : ℕ → FetchOutcome) (backoff : ℚ) (attempt remaining : ℕ) : FetchTrace :=
  match client attempt with
  | .success page => ⟨.ok page, 1, []⟩
  | .failure err => ⟨.error (.other err), 1, []⟩
  | .timeout =>
      match remaining with
      | 0 => ⟨.error .timeout, 1, []⟩
      | r + 1 =>
          let t := fetchLoop client backoff (attempt + 1) r
          ⟨t.outcome, t.calls + 1, backoff * ((attempt : ℚ) + 1) :: t.sleeps⟩

/-- `fetch_with_retries` from the source: start at `attempt = 0` with a
budget of `retries` timeouts. -/
def fetch_with_retries (client : ℕ → FetchOutcome) (retries : ℕ) (backoff : ℚ) : FetchTrace :=
  fetchLoop client backoff 0 retries

/-- Model of `" ".join(texts).strip()` applied to the text nodes matched by
one field selector. -/
def joinStrip (parts : List PyStr) : PyStr :=
  pyStrip (List.intercalate ([' ']) parts)

/-- Per-card body of the extraction loop in `scrape_deals`: the title, price
and discount texts are collapsed; the discount falls back from the badge
selector to the discount selector; a card whose href is `None` or empty is
skipped (`if not url_path: continue`); an href starting with `"http"` is
kept as is, any other href is prefixed with `BASE_URL`. -/
def extractCard (scraped_at : PyStr) (card : CardModel) : Option Deal :=
  let title := joinStrip card.titleTexts
  let price_text := joinStrip card.priceTexts
  let discount0 := joinStrip card.badgeTexts
  let discount := if discount0 = [] then joinStrip card.discountTexts else discount0
  match card.href with
  | none => none
  | some url_path =>
      if url_path = [] then none
      else
        let full_url := if (("http").toList).isPrefixOf url_path then url_path
                        else BASE_URL ++ url_path
        some ⟨title, price_text, discount, full_url, scraped_at⟩

/-- Extraction stage of `scrape_deals`: one `scraped_at` timestamp is read
before the loop and attached to every record; cards that yield no record
are skipped. -/
def extractDeals (page : PageModel) (scraped_at : PyStr) : List Deal :=
  (gridCards page).filterMap (extractCard scraped_at)

/-- `scrape_deals` from the source: fetch the page with retries, then run
the extraction loop on the parsed document; a fetch failure propagates. -/
def scrape_deals (client : ℕ → FetchOutcome) (retries : ℕ) (backoff : ℚ)
    (scraped_at : PyStr) : Except FetchFailure (List Deal) :=
  (fetch_with_retries client retries backoff).outcome.map
    (fun page => extractDeals page scraped_at)

/-- `filter_penny_deals` from the source.  `max_price` defaults to `5.00`
in the Python signature; the default is applied at the call site in `main`.
A record with an absent normalized price is skipped; one with a normalized
price strictly below `max_price` is appended. -/
def filter_penny_deals (results : List Deal) (max_price : ℚ) : List Deal :=
  match results with
  | [] => []
  | deal :: rest =>
      match normalize_price deal.price with
      | none => filter_penny_deals rest max_price
      | some price_value =>
          if price_value < max_price then deal :: filter_penny_deals rest max_price
          else filter_penny_deals rest max_price

/-- The payload dict built in `main`. -/
structure Payload where
  scraped_at : PyStr
  source_url : PyStr
  deal_count : ℕ
  penny_deal_count : ℕ
  deals : List Deal
  penny_deals : List Deal
deriving DecidableEq

/-- Payload construction in `main`: `filter_penny_deals(results)` with the
default threshold `5.00`, counts taken as the lengths of the two lists. -/
def mkPayload (run_ts : PyStr) (source_url : PyStr) (results : List Deal) : Payload :=
  let penny_deals := filter_penny_deals results 5
  { scraped_at := run_ts
    source_url := source_url
    deal_count := results.length
    penny_deal_count := penny_deals.length
    deals := results
    penny_deals := penny_deals }

/-- CSV line terminator written by `csv.writer` by default. -/
def crlf : PyStr := ['\r', '\n']

/-- QUOTE_MINIMAL test of the `csv` module: a field is quoted iff it
contains the delimiter, the quote character or a line-break character. -/
def csvNeedsQuote (s : PyStr) : Bool :=
  s.any (fun c => c = ',' || c = '"' || c = '\r' || c = '\n')

/-- One serialized CSV field under QUOTE_MINIMAL: quoted with inner quotes
doubled when needed, otherwise written raw. -/
def csvField (s : PyStr) : PyStr :=
  if csvNeedsQuote s then
    '"' :: ((s.map (fun c => if c = '"' then ['"', '"'] else [c])).flatten ++ ['"'])
  else s

/-- One CSV data row for a record, in the `fieldnames` order
`title, price, discount, url, scraped_at` of the source. -/
def csvRow (d : Deal) : PyStr :=
  List.intercalate ([','])
    [csvField d.title, csvField d.price, csvField d.discount, csvField d.url,
      csvField d.scraped_at]

/-- Header row written by `writer.writeheader()`. -/
def csvHeaderRow : PyStr := ("title,price,discount,url,scraped_at").toList

/-- Full sidecar text: the header row, then one row per record of the list
passed to `writer.writerows` — in `main` that list is `results`. -/
def csvText (results : List Deal) : PyStr :=
  (csvHeaderRow ++ crlf) ++ (results.map (fun d => csvRow d ++ crlf)).flatten

/-- Final path component and the rest, as `pathlib` splits a name off. -/
def nameSplit (path : PyStr) : PyStr × PyStr :=
  ((path.reverse.dropWhile (fun c => c ≠ '/')).reverse,
    (path.reverse.takeWhile (fun c => c ≠ '/')).reverse)

/-- Drop the `pathlib` suffix of a name: the part from the last dot on,
provided that dot is neither the first nor the last character of the name
(`0 < i < len(name) - 1` in `PurePath.suffix`). -/
def dropDotSuffix (name : PyStr) : PyStr :=
  match name.reverse.dropWhile (fun c => c ≠ '.') with
  | [] => name
  | _ :: rest =>
      if name.reverse.takeWhile (fun c => c ≠ '.') = [] then name
      else if rest = [] then name
      else rest.reverse

/-- Model of `Path(path).with_suffix(".csv")` as used in `main`: replace
the final component's suffix (if any) with `.csv`. -/
def with_suffix_csv (path : PyStr) : PyStr :=
  (nameSplit path).1 ++ dropDotSuffix (nameSplit path).2 ++ (".csv").toList

/-- Contents of an output file.  The primary write serializes the payload
with `json.dumps(payload, indent=2, ensure_ascii=False)`; no property reads
the JSON byte encoding back, so the file is modelled as holding the payload
value itself, while the sidecar holds its literal text. -/
inductive FileData where
  | jsonData (payload : Payload)
  | textData (content : PyStr)
deriving DecidableEq

/-- The file store: path to contents. -/
def FS := PyStr → Option FileData

/-- A write replaces the full contents at a path.  `Path.write_text` and
the `csv` writer truncate and rewrite the file; a single write is modelled
as atomic (sub-syscall partial writes are below the model). -/
def FS.write (fs : FS) (p : PyStr) (d : FileData) : FS :=
  fun q => if q = p then some d else fs q

/-- Environment telling which of the fallible I/O steps of `main` succeed:
`mkdir(parents=True, exist_ok=True)`, the primary JSON write, and the CSV
sidecar write.  A `false` step raises `OSError` at that point. -/
structure WriteEnv where
  mkdirOk : Bool
  jsonOk : Bool
  csvOk : Bool

/-- Process outcome of `main`: the success print at the end, or a non-zero
exit from an uncaught exception. -/
inductive RunExit where
  | success
  | failure
deriving DecidableEq

/-- Model of `main` from the source (the name `main` is reserved by the
compiler for an executable entry point), after argument parsing: build the source URL,
scrape (fetch with retries + extract), classify with the default threshold,
create the output directory, write the JSON payload, then write the CSV
sidecar with the full `results` list.  Any uncaught exception — fetch
failure, mkdir failure, either write failing — terminates the process with
a non-zero status, leaving the file store as it was at that point.  The
record timestamp and the payload timestamp are two separate clock reads in
the source, so they are two parameters here. -/
def mainRun (client : ℕ → FetchOutcome) (retries : ℕ) (backoff : ℚ)
    (store : Option PyStr) (record_ts payload_ts : PyStr)
    (env : WriteEnv) (output_path : PyStr) (fs : FS) : RunExit × FS :=
  let source_url := build_url store
  match (fetch_with_retries client retries backoff).outcome with
  | .error _ => (.failure, fs)
  | .ok page =>
      let results := extractDeals page record_ts
      let payload := mkPayload payload_ts source_url results
      if env.mkdirOk then
        if env.jsonOk then
          let fs1 := FS.write fs output_path (.jsonData payload)
          if env.csvOk then
            (.success, FS.write fs1 (with_suffix_csv output_path) (.textData (csvText results)))
          else (.failure, fs1)
        else (.failure, fs)
      else (.failure, fs)

/-- Spec-side penny-deal predicate: the normalized price is present and
strictly below the threshold. -/
def isPennyDeal (max_price : ℚ) (d : Deal) : Bool :=
  match normalize_price d.price with
  | none => false
  | some v => decide (v < max_price)

/-- Spec-side value of a digit sequence in positional notation. -/
def specDigitsVal (ds : List ℕ) : ℕ :=
  ds.foldl (fun a d => 10 * a + d) 0

/-- Digit sequence rendered as characters. -/
def digitsStr (ds : List ℕ) : PyStr :=
  ds.map Nat.digitChar

lemma filter_penny_deals_eq_filter (results : List Deal) (mp : ℚ) :
    filter_penny_deals results mp = results.filter (isPennyDeal mp) := by
  induction results with
  | nil => rfl
  | cons d rest ih =>
      unfold filter_penny_deals
      cases h : normalize_price d.price with
      | none => simp [List.filter_cons, isPennyDeal, h, ih]
      | some v =>
          by_cases hv : v < mp <;>
            simp [List.filter_cons, isPennyDeal, h, hv, ih]

lemma isPennyDeal_iff (mp : ℚ) (d : Deal) :
    isPennyDeal mp d = true ↔ ∃ v, normalize_price d.price = some v ∧ v < mp := by
  unfold isPennyDeal
  cases h : normalize_price d.price <;> simp

/-- C1: for every record list and every `max_price`, `filter_penny_deals`
returns exactly the order-preserving filter of the full list by the
penny-deal predicate (normalized price present and strictly below
`max_price`), hence an order-preserved subsequence; records with an absent
normalized price are excluded from the penny subset while the full set is
kept whole; and in the persisted payload, built with the default threshold
`5.00`, `deal_count` is the length of `deals` and `penny_deal_count` the
length of `penny_deals`. -/
theorem C1_classification (results : List Deal) (max_price : ℚ)
    (run_ts source_url : PyStr) :
    filter_penny_deals results max_price = results.filter (isPennyDeal max_price)
    ∧ (filter_penny_deals results max_price).Sublist results
    ∧ (∀ d, d ∈ filter_penny_deals results max_price ↔
        d ∈ results ∧ ∃ v, normalize_price d.price = some v ∧ v < max_price)
    ∧ (mkPayload run_ts source_url results).deals = results
    ∧ (mkPayload run_ts source_url results).penny_deals = filter_penny_deals results 5
    ∧ (mkPayload run_ts source_url results).deal_count
        = (mkPayload run_ts source_url results).deals.length
    ∧ (mkPayload run_ts source_url results).penny_deal_count
        = (mkPayload run_ts source_url results).penny_deals.length := by
  refine ⟨filter_penny_deals_eq_filter results max_price, ?_, ?_, rfl, rfl, rfl, rfl⟩
  · rw [filter_penny_deals_eq_filter]
    exact List.filter_sublist results
  · intro d
    rw [filter_penny_deals_eq_filter, List.mem_filter, isPennyDeal_iff]

lemma digitChar_facts {d : ℕ} (h : d < 10) :
    (Nat.digitChar d).isDigit = true ∧ Nat.digitChar d ≠ '$' ∧ Nat.digitChar d ≠ ','
    ∧ Nat.digitChar d ≠ '+' ∧ Nat.digitChar d ≠ '-' ∧ Nat.digitChar d ≠ '.'
    ∧ (Nat.digitChar d).isWhitespace = false
    ∧ (Nat.digitChar d).toNat - ('0').toNat = d := by
  interval_cases d <;> exact ⟨rfl, by decide, by decide, by decide, by decide, by decide,
    rfl, rfl⟩

lemma digitsStr_foldl (ds : List ℕ) (h : ∀ d ∈ ds, d < 10) (a : ℕ) :
    (digitsStr ds).foldl (fun x c => 10 * x + (c.toNat - ('0').toNat)) a
      = ds.foldl (fun x d => 10 * x + d) a := by
  induction ds generalizing a with
  | nil => rfl
  | cons d rest ih =>
      simp only [digitsStr, List.map_cons, List.foldl_cons]
      rw [(digitChar_facts (h d (List.mem_cons_self d rest))).2.2.2.2.2.2.2]
      exact ih (fun x hx => h x (List.mem_cons_of_mem d hx)) _

lemma digitsVal_digitsStr (ds : List ℕ) (h : ∀ d ∈ ds, d < 10) :
    digitsVal (digitsStr ds) = specDigitsVal ds :=
  digitsStr_foldl ds h 0

lemma takeWhile_eq_self_of_all {p : Char → Bool} (l : PyStr) (h : ∀ c ∈ l, p c = true) :
    l.takeWhile p = l := by
  induction l with
  | nil => rfl
  | cons c cs ih =>
      rw [List.takeWhile_cons, if_pos (h c (List.mem_cons_self c cs))]
      rw [ih (fun x hx => h x (List.mem_cons_of_mem c hx))]

lemma dropWhile_eq_nil_of_all {p : Char → Bool} (l : PyStr) (h : ∀ c ∈ l, p c = true) :
    l.dropWhile p = [] := by
  induction l with
  | nil => rfl
  | cons c cs ih =>
      rw [List.dropWhile_cons, if_pos (h c (List.mem_cons_self c cs))]
      exact ih (fun x hx => h x (List.mem_cons_of_mem c hx))

lemma takeWhile_append_of_all {p : Char → Bool} (l r : PyStr) (h : ∀ c ∈ l, p c = true)
    (hr : r.takeWhile p = []) : (l ++ r).takeWhile p = l := by
  induction l with
  | nil => simpa using hr
  | cons c cs ih =>
      rw [List.cons_append, List.takeWhile_cons, if_pos (h c (List.mem_cons_self c cs))]
      rw [ih (fun x hx => h x (List.mem_cons_of_mem c hx))]

lemma dropWhile_append_of_all {p : Char → Bool} (l r : PyStr) (h : ∀ c ∈ l, p c = true)
    (hr : r.dropWhile p = r) : (l ++ r).dropWhile p = r := by
  induction l with
  | nil => simpa using hr
  | cons c cs ih =>
      rw [List.cons_append, List.dropWhile_cons, if_pos (h c (List.mem_cons_self c cs))]
      exact ih (fun x hx => h x (List.mem_cons_of_mem c hx))

lemma dropWhile_ws_eq_self (s : PyStr) (h : ∀ c ∈ s, c.isWhitespace = false) :
    s.dropWhile Char.isWhitespace = s := by
  cases s with
  | nil => rfl
  | cons c cs =>
      rw [List.dropWhile_cons, if_neg]
      simp [h c (List.mem_cons_self c cs)]

lemma pyStrip_eq_self (s : PyStr) (h : ∀ c ∈ s, c.isWhitespace = false) :
    pyStrip s = s := by
  unfold pyStrip
  rw [dropWhile_ws_eq_self s h, dropWhile_ws_eq_self s.reverse
    (fun c hc => h c (List.mem_reverse.mp hc)), List.reverse_reverse]

lemma pyReplaceChar_eq_self (old : Char) (s : PyStr) (h : ∀ c ∈ s, c ≠ old) :
    pyReplaceChar old s = s := by
  unfold pyReplaceChar
  rw [List.filter_eq_self]
  intro c hc
  simpa using h c hc

lemma digit_side_facts (c : Char) (h : c.isDigit = true) :
    c ≠ '$' ∧ c ≠ ',' ∧ c ≠ '+' ∧ c ≠ '-' ∧ c ≠ '/' ∧ c.isWhitespace = false := by
  refine ⟨?_, ?_, ?_, ?_, ?_, ?_⟩
  · intro e; subst e; exact absurd h (by decide)
  · intro e; subst e; exact absurd h (by decide)
  · intro e; subst e; exact absurd h (by decide)
  · intro e; subst e; exact absurd h (by decide)
  · intro e; subst e; exact absurd h (by decide)
  · cases hw : c.isWhitespace
    · rfl
    · exfalso
      simp [Char.isWhitespace] at hw
      rcases hw with ((e | e) | e) | e <;> (subst e; exact absurd h (by decide))

lemma decimalCore_dot (ipc fpc : PyStr) (hip : ∀ c ∈ ipc, c.isDigit = true)
    (hfp : ∀ c ∈ fpc, c.isDigit = true) (hne : ipc ≠ []) :
    decimalCore (ipc ++ '.' :: fpc)
      = some ((digitsVal ipc : ℚ) + (digitsVal fpc : ℚ) / (10 : ℚ) ^ fpc.length) := by
  unfold decimalCore
  rw [takeWhile_append_of_all ipc _ hip (by rw [List.takeWhile_cons, if_neg (by decide)]),
    dropWhile_append_of_all ipc _ hip (by rw [List.dropWhile_cons, if_neg (by decide)])]
  simp [List.all_eq_true.mpr hfp, hne]

lemma decimalCore_digits (ipc : PyStr) (hip : ∀ c ∈ ipc, c.isDigit = true)
    (hne : ipc ≠ []) : decimalCore ipc = some ((digitsVal ipc : ℚ)) := by
  unfold decimalCore
  rw [takeWhile_eq_self_of_all ipc hip, dropWhile_eq_nil_of_all ipc hip]
  simp [hne]

lemma pyFloat_head_digit (c : Char) (t : PyStr) (h : c.isDigit = true) :
    pyFloat (c :: t) = decimalCore (c :: t) := by
  simp only [pyFloat]
  rw [if_neg (digit_side_facts c h).2.2.1, if_neg (digit_side_facts c h).2.2.2.1]

lemma clean_of_plain (s : PyStr) (h1 : ∀ c ∈ s, c ≠ '$') (h2 : ∀ c ∈ s, c ≠ ',')
    (h3 : ∀ c ∈ s, c.isWhitespace = false) :
    pyStrip (pyReplaceChar ',' (pyReplaceChar '$' s)) = s := by
  rw [pyReplaceChar_eq_self '$' s h1, pyReplaceChar_eq_self ',' s h2, pyStrip_eq_self s h3]

lemma digitsStr_all_digit (ds : List ℕ) (h : ∀ d ∈ ds, d < 10) :
    ∀ c ∈ digitsStr ds, c.isDigit = true := by
  intro c hc
  obtain ⟨d, hd, rfl⟩ := List.mem_map.mp hc
  exact (digitChar_facts (h d hd)).1

lemma normalize_price_numeral (ip fp : List ℕ) (h1 : ∀ d ∈ ip, d < 10)
    (h2 : ∀ d ∈ fp, d < 10) (h3 : ip ≠ []) :
    normalize_price ('$' :: (digitsStr ip ++ '.' :: digitsStr fp))
      = some ((specDigitsVal ip : ℚ) + (specDigitsVal fp : ℚ) / (10 : ℚ) ^ fp.length) := by
  have hipc := digitsStr_all_digit ip h1
  have hfpc := digitsStr_all_digit fp h2
  have hmem : ∀ c ∈ digitsStr ip ++ '.' :: digitsStr fp, c.isDigit = true ∨ c = '.' := by
    intro c hc
    rcases List.mem_append.mp hc with hc | hc
    · exact Or.inl (hipc c hc)
    · rcases List.mem_cons.mp hc with hc | hc
      · exact Or.inr hc
      · exact Or.inl (hfpc c hc)
  have hne : digitsStr ip ≠ [] := by
    intro e
    exact h3 (List.map_eq_nil_iff.mp e)
  have hclean : pyStrip (pyReplaceChar ',' (pyReplaceChar '$'
      ('$' :: (digitsStr ip ++ '.' :: digitsStr fp))))
        = digitsStr ip ++ '.' :: digitsStr fp := by
    have hdol : pyReplaceChar '$' ('$' :: (digitsStr ip ++ '.' :: digitsStr fp))
        = digitsStr ip ++ '.' :: digitsStr fp := by
      unfold pyReplaceChar
      rw [List.filter_cons_of_neg (by simp), List.filter_eq_self.mpr]
      intro c hc
      rcases hmem c hc with h | h
      · simpa using (digit_side_facts c h).1
      · subst h; decide
    rw [hdol, pyReplaceChar_eq_self ',' _ (fun c hc => by
        rcases hmem c hc with h | h
        · exact (digit_side_facts c h).2.1
        · subst h; decide),
      pyStrip_eq_self _ (fun c hc => by
        rcases hmem c hc with h | h
        · exact (digit_side_facts c h).2.2.2.2.2
        · subst h; decide)]
  unfold normalize_price
  rw [hclean, if_neg (by simp [hne])]
  obtain ⟨d, ds, hds⟩ := List.exists_cons_of_ne_nil hne
  rw [hds, List.cons_append,
    pyFloat_head_digit _ _ (hipc d (hds.symm ▸ List.mem_cons_self d ds)),
    ← List.cons_append, ← hds]
  rw [decimalCore_dot _ _ hipc hfpc hne]
  rw [digitsVal_digitsStr ip h1, digitsVal_digitsStr fp h2]
  simp [digitsStr]

lemma normalize_price_int_digits (ip : List ℕ) (h1 : ∀ d ∈ ip, d < 10) (h3 : ip ≠ []) :
    normalize_price (digitsStr ip) = some ((specDigitsVal ip : ℚ)) := by
  have hipc := digitsStr_all_digit ip h1
  have hne : digitsStr ip ≠ [] := by
    intro e
    exact h3 (List.map_eq_nil_iff.mp e)
  unfold normalize_price
  rw [clean_of_plain _ (fun c hc => (digit_side_facts c (hipc c hc)).1)
      (fun c hc => (digit_side_facts c (hipc c hc)).2.1)
      (fun c hc => (digit_side_facts c (hipc c hc)).2.2.2.2.2),
    if_neg (by simp [hne])]
  obtain ⟨d, ds, hds⟩ := List.exists_cons_of_ne_nil hne
  rw [hds, pyFloat_head_digit _ _ (hipc d (hds.symm ▸ List.mem_cons_self d ds)), ← hds]
  rw [decimalCore_digits _ hipc hne, digitsVal_digitsStr ip h1]

lemma normalize_price_insert_comma (s t : PyStr) :
    normalize_price (s ++ ',' :: t) = normalize_price (s ++ t) := by
  unfold normalize_price pyReplaceChar
  simp [List.filter_append, List.filter_cons]

lemma normalize_price_insert_dollar (s t : PyStr) :
    normalize_price (s ++ '$' :: t) = normalize_price (s ++ t) := by
  unfold normalize_price pyReplaceChar
  simp [List.filter_append, List.filter_cons]

/-- C2: `normalize_price` maps a decimal price string with a currency
symbol and thousands separators to its exact numeric value (inserting `,`
or `$` anywhere never changes the result, and a pure numeral of integer
digits `ip` and fraction digits `fp` evaluates to exactly
`ip + fp / 10 ^ |fp|`, e.g. `"$1,234.50"` to `1234.5`); an input that is
empty after stripping symbols, separators and whitespace yields `none`, as
does a non-numeric remainder — never zero and never an error, the function
being total. -/
theorem C2_normalize_price_spec (ip fp : List ℕ) (h1 : ∀ d ∈ ip, d < 10)
    (h2 : ∀ d ∈ fp, d < 10) (h3 : ip ≠ []) :
    normalize_price ('$' :: (digitsStr ip ++ '.' :: digitsStr fp))
      = some ((specDigitsVal ip : ℚ) + (specDigitsVal fp : ℚ) / (10 : ℚ) ^ fp.length)
    ∧ normalize_price (digitsStr ip) = some ((specDigitsVal ip : ℚ))
    ∧ (∀ s t : PyStr, normalize_price (s ++ ',' :: t) = normalize_price (s ++ t))
    ∧ (∀ s t : PyStr, normalize_price (s ++ '$' :: t) = normalize_price (s ++ t))
    ∧ (∀ s : PyStr, pyStrip (pyReplaceChar ',' (pyReplaceChar '$' s)) = [] →
        normalize_price s = none)
    ∧ normalize_price (("$1,234.50").toList) = some ((2469 : ℚ) / 2)
    ∧ normalize_price (("abc").toList) = none
    ∧ normalize_price (("$ ,").toList) = none
    ∧ normalize_price (("1.2.3").toList) = none
    ∧ normalize_price ([]) = none := by
  refine ⟨normalize_price_numeral ip fp h1 h2 h3, normalize_price_int_digits ip h1 h3,
    normalize_price_insert_comma, normalize_price_insert_dollar, ?_, ?_,
    by decide, by decide, by decide, by decide⟩
  · intro s h
    unfold normalize_price
    rw [h]
    simp
  · have step1 : ("$1,234.50").toList
        = (['$', '1'] ++ ',' :: ['2', '3', '4', '.', '5', '0']) := by decide
    have step2 : (['$', '1'] : PyStr) ++ ['2', '3', '4', '.', '5', '0']
        = '$' :: (digitsStr [1, 2, 3, 4] ++ '.' :: digitsStr [5, 0]) := by decide
    rw [step1, normalize_price_insert_comma, step2,
      normalize_price_numeral [1, 2, 3, 4] [5, 0] (by decide) (by decide) (by decide)]
    norm_num [specDigitsVal]

/-- Witness for C2 at the concrete numeral `$4.99`. -/
theorem C2_normalize_price_spec_witness :
    normalize_price ('$' :: (digitsStr [4] ++ '.' :: digitsStr [9, 9]))
      = some ((specDigitsVal [4] : ℚ)
          + (specDigitsVal [9, 9] : ℚ) / (10 : ℚ) ^ ([9, 9] : List ℕ).length) :=
  (C2_normalize_price_spec [4] [9, 9] (by decide) (by decide) (by decide)).1

lemma fetchLoop_ok (r : ℕ) : ∀ (attempt : ℕ) (client : ℕ → FetchOutcome) (backoff : ℚ)
    (page : PageModel),
    (∀ k, attempt ≤ k → k < attempt + r → client k = .timeout) →
    client (attempt + r) = .success page →
    fetchLoop client backoff attempt r
      = ⟨.ok page, r + 1, (List.range' (attempt + 1) r).map (fun k => backoff * (k : ℚ))⟩ := by
  induction r with
  | zero =>
      intro attempt client backoff page h1 h2
      rw [Nat.add_zero] at h2
      simp [fetchLoop, h2, List.range']
  | succ r ih =>
      intro attempt client backoff page h1 h2
      have htime : client attempt = .timeout := h1 attempt le_rfl (by omega)
      have hrec := ih (attempt + 1) client backoff page
        (fun k hk1 hk2 => h1 k (by omega) (by omega))
        (by rw [show attempt + 1 + r = attempt + (r + 1) by omega]; exact h2)
      simp [fetchLoop, htime, hrec, List.range']

lemma fetchLoop_timeout_all (r : ℕ) : ∀ (attempt : ℕ) (client : ℕ → FetchOutcome)
    (backoff : ℚ),
    (∀ k, attempt ≤ k → k ≤ attempt + r → client k = .timeout) →
    fetchLoop client backoff attempt r
      = ⟨.error .timeout, r + 1, (List.range' (attempt + 1) r).map (fun k => backoff * (k : ℚ))⟩ := by
  induction r with
  | zero =>
      intro attempt client backoff h1
      have htime : client attempt = .timeout := h1 attempt le_rfl (by omega)
      simp [fetchLoop, htime, List.range']
  | succ r ih =>
      intro attempt client backoff h1
      have htime : client attempt = .timeout := h1 attempt le_rfl (by omega)
      have hrec := ih (attempt + 1) client backoff
        (fun k hk1 hk2 => h1 k (by omega) (by omega))
      simp [fetchLoop, htime, hrec, List.range']

/-- C3: the fetcher retries a transient timeout at most `retries` further
times, sleeping `backoff * attempt_number` seconds before each retry
(linear backoff, the sleeps being `backoff * 1, ..., backoff * retries`):
a client that times out on exactly the first `retries` calls and then
succeeds yields the final call's page after `retries + 1` calls, while a
client that times out `retries + 1` times makes the run raise the timeout
after `retries + 1` calls. -/
theorem C3_retry_policy (retries : ℕ) (backoff : ℚ) (client client2 : ℕ → FetchOutcome)
    (page : PageModel)
    (h1 : ∀ k, k < retries → client k = .timeout)
    (h2 : client retries = .success page)
    (h3 : ∀ k, k ≤ retries → client2 k = .timeout) :
    fetch_with_retries client retries backoff
      = ⟨.ok page, retries + 1, (List.range' 1 retries).map (fun k => backoff * (k : ℚ))⟩
    ∧ fetch_with_retries client2 retries backoff
      = ⟨.error .timeout, retries + 1,
          (List.range' 1 retries).map (fun k => backoff * (k : ℚ))⟩ := by
  constructor
  · exact fetchLoop_ok retries 0 client backoff page
      (fun k hk1 hk2 => h1 k (by omega)) (by simpa using h2)
  · exact fetchLoop_timeout_all retries 0 client2 backoff
      (fun k hk1 hk2 => h3 k (by omega))

/-- Client that times out twice, then serves an empty page. -/
def clientTwoTimeouts : ℕ → FetchOutcome :=
  fun k => if k < 2 then .timeout else .success ⟨none⟩

/-- Client that always times out. -/
def clientAllTimeouts : ℕ → FetchOutcome :=
  fun _ => .timeout

/-- Witness for C3 with `retries = 2`, `backoff = 3`. -/
theorem C3_retry_policy_witness :
    fetch_with_retries clientTwoTimeouts 2 3
      = ⟨.ok ⟨none⟩, 2 + 1, (List.range' 1 2).map (fun k => (3 : ℚ) * (k : ℚ))⟩
    ∧ fetch_with_retries clientAllTimeouts 2 3
      = ⟨.error .timeout, 2 + 1, (List.range' 1 2).map (fun k => (3 : ℚ) * (k : ℚ))⟩ :=
  C3_retry_policy 2 3 clientTwoTimeouts clientAllTimeouts ⟨none⟩
    (fun k hk => by simp [clientTwoTimeouts, hk])
    (by simp [clientTwoTimeouts])
    (fun k hk => rfl)

/-- C4: a non-timeout failure on the first attempt — in particular a
non-success HTTP status raised by `raise_for_status` — propagates at once:
exactly one call is made and no sleep occurs, whatever `retries` is. -/
theorem C4_permanent_failure_no_retry (client : ℕ → FetchOutcome) (retries : ℕ)
    (backoff : ℚ) (err : FetchErr) (h : client 0 = .failure err) :
    fetch_with_retries client retries backoff = ⟨.error (.other err), 1, []⟩ := by
  unfold fetch_with_retries
  cases retries with
  | zero => simp [fetchLoop, h]
  | succ r => simp [fetchLoop, h]

/-- Client whose first response is an HTTP 404 status error. -/
def clientHttp404 : ℕ → FetchOutcome :=
  fun _ => .failure (.httpStatus 404)

/-- Witness for C4: a 404 with `retries = 5` fails immediately. -/
theorem C4_permanent_failure_no_retry_witness :
    fetch_with_retries clientHttp404 5 2 = ⟨.error (.other (.httpStatus 404)), 1, []⟩ :=
  C4_permanent_failure_no_retry clientHttp404 5 2 (.httpStatus 404) rfl

lemma extractCard_none_of_no_href (ts : PyStr) (card : CardModel) (h : card.href = none) :
    extractCard ts card = none := by
  simp [extractCard, h]

lemma extractCard_eq_some (ts : PyStr) (card : CardModel) (p : PyStr)
    (h : card.href = some p) (hne : p ≠ []) :
    extractCard ts card = some
      ⟨joinStrip card.titleTexts, joinStrip card.priceTexts,
        if joinStrip card.badgeTexts = [] then joinStrip card.discountTexts
        else joinStrip card.badgeTexts,
        if (("http").toList).isPrefixOf p then p else BASE_URL ++ p, ts⟩ := by
  simp [extractCard, h, hne]

lemma extractCard_absolute (ts : PyStr) (card : CardModel) (p : PyStr)
    (h : card.href = some p) (hpre : (("http").toList).isPrefixOf p = true) :
    ∃ d, extractCard ts card = some d ∧ d.url = p := by
  have hne : p ≠ [] := by
    rcases List.isPrefixOf_iff_prefix.mp hpre with ⟨t, rfl⟩
    simp
  refine ⟨_, extractCard_eq_some ts card p h hne, ?_⟩
  show (if (("http").toList).isPrefixOf p = true then p else BASE_URL ++ p) = p
  rw [hpre]
  simp

lemma extractCard_relative (ts : PyStr) (card : CardModel) (p : PyStr)
    (h : card.href = some p) (hne : p ≠ [])
    (hpre : (("http").toList).isPrefixOf p = false) :
    ∃ d, extractCard ts card = some d ∧ d.url = BASE_URL ++ p := by
  refine ⟨_, extractCard_eq_some ts card p h hne, ?_⟩
  show (if (("http").toList).isPrefixOf p = true then p else BASE_URL ++ p) = BASE_URL ++ p
  rw [hpre]
  simp

lemma extractCard_some_facts (ts : PyStr) (card : CardModel) (d : Deal)
    (h : extractCard ts card = some d) : d.url ≠ [] ∧ d.scraped_at = ts := by
  cases hh : card.href with
  | none => rw [extractCard_none_of_no_href ts card hh] at h; exact absurd h (by simp)
  | some p =>
      by_cases hpe : p = []
      · subst hpe
        simp [extractCard, hh] at h
      · rw [extractCard_eq_some ts card p hh hpe] at h
        simp only [Option.some.injEq] at h
        subst h
        refine ⟨?_, rfl⟩
        show ¬(if (("http").toList).isPrefixOf p = true then p else BASE_URL ++ p) = []
        by_cases habs : (("http").toList).isPrefixOf p = true
        · rw [habs]
          simpa using hpe
        · simp only [Bool.not_eq_true] at habs
          rw [habs]
          simp [BASE_URL]

/-- C6: a card whose href is absolute (starts with `http`, e.g.
`https://other.example/x`) is emitted with that url unchanged; a relative
href is emitted as the fixed site origin prefixed to it; a card with no
href is skipped entirely, and every emitted record carries a non-empty
url — no partial record is emitted. -/
theorem C6_url_resolution (ts : PyStr) :
    (∀ card : CardModel, card.href = none → extractCard ts card = none)
    ∧ (∀ card p, card.href = some p → (("http").toList).isPrefixOf p = true →
        ∃ d, extractCard ts card = some d ∧ d.url = p)
    ∧ (∀ card p, card.href = some p → p ≠ [] → (("http").toList).isPrefixOf p = false →
        ∃ d, extractCard ts card = some d ∧ d.url = BASE_URL ++ p)
    ∧ (∀ page d, d ∈ extractDeals page ts → d.url ≠ []) := by
  refine ⟨extractCard_none_of_no_href ts,
    fun card p h hp => extractCard_absolute ts card p h hp,
    fun card p h hne hp => extractCard_relative ts card p h hne hp, ?_⟩
  intro page d hd
  obtain ⟨card, hcard, hex⟩ := List.mem_filterMap.mp hd
  exact (extractCard_some_facts ts card d hex).1

/-- Card with a relative href `/p/1`, as in the spec's end-to-end example. -/
def cardWidget : CardModel :=
  ⟨[("Widget").toList], [("$4.99").toList], [], [], some (("/p/1").toList)⟩

/-- Page with exactly the one `cardWidget` in its grid. -/
def pageOneCard : PageModel := ⟨some [cardWidget]⟩

/-- Witness for C6: the relative href `/p/1` resolves against the origin. -/
theorem C6_url_resolution_witness :
    ∃ d, extractCard (("T").toList) cardWidget = some d
      ∧ d.url = BASE_URL ++ ("/p/1").toList :=
  (C6_url_resolution (("T").toList)).2.2.1 cardWidget (("/p/1").toList) rfl
    (by decide) (by decide)

/-- C7: when no element matches the grid selector, extraction yields the
empty record sequence rather than failing; through `scrape_deals` a
successful fetch of such a page yields `ok []`. -/
theorem C7_absent_grid_empty (ts : PyStr) (page : PageModel) (h : page.grid = none) :
    extractDeals page ts = []
    ∧ (∀ (client : ℕ → FetchOutcome) (retries : ℕ) (backoff : ℚ),
        (fetch_with_retries client retries backoff).outcome = .ok page →
        scrape_deals client retries backoff ts = .ok []) := by
  have h1 : extractDeals page ts = [] := by
    simp [extractDeals, gridCards, h]
  refine ⟨h1, ?_⟩
  intro client retries backoff hfetch
  unfold scrape_deals
  rw [hfetch]
  simp [Except.map, h1]

/-- Page whose grid selector matches nothing. -/
def emptyPage : PageModel := ⟨none⟩

/-- Witness for C7 on the concrete gridless page. -/
theorem C7_absent_grid_empty_witness : extractDeals emptyPage (("T").toList) = [] :=
  (C7_absent_grid_empty (("T").toList) emptyPage rfl).1

/-- C8: every record emitted by one invocation of the extraction stage
carries the single `scraped_at` value read before the card loop. -/
theorem C8_scraped_at_consistent (page : PageModel) (ts : PyStr) :
    ∀ d ∈ extractDeals page ts, d.scraped_at = ts := by
  intro d hd
  obtain ⟨card, hcard, hex⟩ := List.mem_filterMap.mp hd
  exact (extractCard_some_facts ts card d hex).2

/-- The record extracted from `cardWidget` at timestamp `T`. -/
def dealWidget : Deal :=
  ⟨("Widget").toList, ("$4.99").toList, [],
    ("https://www.homedepot.ca/p/1").toList, ("T").toList⟩

/-- Witness for C8 on the one-card page. -/
theorem C8_scraped_at_consistent_witness : dealWidget.scraped_at = ("T").toList :=
  C8_scraped_at_consistent pageOneCard (("T").toList) dealWidget (by decide)

/-- C10: the absolute-versus-relative decision is the plain four-character
test `url_path.startswith("http")` and relative resolution is plain string
concatenation with the fixed base origin: any href not starting with
`http` — including the protocol-relative `//other.example/x` — is emitted
as `BASE_URL ++ href` verbatim, with no URL normalization. -/
theorem C10_href_decision (ts : PyStr) :
    (∀ card p, card.href = some p → p ≠ [] → (("http").toList).isPrefixOf p = false →
        ∃ d, extractCard ts card = some d ∧ d.url = BASE_URL ++ p)
    ∧ (∀ card p, card.href = some p → (("http").toList).isPrefixOf p = true →
        ∃ d, extractCard ts card = some d ∧ d.url = p)
    ∧ (∀ card, card.href = some (("//other.example/x").toList) →
        ∃ d, extractCard ts card = some d
          ∧ d.url = ("https://www.homedepot.ca//other.example/x").toList) := by
  refine ⟨fun card p h hne hp => extractCard_relative ts card p h hne hp,
    fun card p h hp => extractCard_absolute ts card p h hp, ?_⟩
  intro card h
  obtain ⟨d, hd, hurl⟩ := extractCard_relative ts card _ h (by decide) (by decide)
  exact ⟨d, hd, by rw [hurl]; decide⟩

/-- Card carrying the protocol-relative href `//other.example/x`. -/
def cardProtoRel : CardModel := ⟨[], [], [], [], some (("//other.example/x").toList)⟩

/-- Witness for C10 on the protocol-relative href. -/
theorem C10_href_decision_witness :
    ∃ d, extractCard (("T").toList) cardProtoRel = some d
      ∧ d.url = ("https://www.homedepot.ca//other.example/x").toList :=
  (C10_href_decision (("T").toList)).2.2 cardProtoRel rfl

/-- C5: persistence is all-or-surfaced.  Success is reported iff the fetch
succeeded and the mkdir, primary JSON write and CSV sidecar write all
succeeded, and then both files hold their complete contents (the primary
one provided the sidecar path does not collide with it).  On any failure
the process exits non-zero and every path in the store is either untouched
or holds one complete write — with per-write atomicity as modelled in
`FS.write`, no half-written file remains.  If the fetch itself failed,
nothing at all was written. -/
theorem C5_persist_all_or_surfaced (client : ℕ → FetchOutcome) (retries : ℕ)
    (backoff : ℚ) (store : Option PyStr) (record_ts payload_ts : PyStr)
    (env : WriteEnv) (output_path : PyStr) (fs : FS) (ex : RunExit) (fs' : FS)
    (h : mainRun client retries backoff store record_ts payload_ts env output_path fs
      = (ex, fs')) :
    (ex = .success ↔ (∃ page, (fetch_with_retries client retries backoff).outcome = .ok page)
      ∧ env.mkdirOk = true ∧ env.jsonOk = true ∧ env.csvOk = true)
    ∧ (∀ page, (fetch_with_retries client retries backoff).outcome = .ok page →
        ex = .success →
        fs' (with_suffix_csv output_path)
          = some (.textData (csvText (extractDeals page record_ts)))
        ∧ (output_path ≠ with_suffix_csv output_path →
            fs' output_path = some (.jsonData (mkPayload payload_ts (build_url store)
              (extractDeals page record_ts)))))
    ∧ (ex = .failure → ∀ p, fs' p = fs p
        ∨ ∃ page, (fetch_with_retries client retries backoff).outcome = .ok page
            ∧ p = output_path
            ∧ fs' p = some (.jsonData (mkPayload payload_ts (build_url store)
                (extractDeals page record_ts))))
    ∧ ((∀ page, (fetch_with_retries client retries backoff).outcome ≠ .ok page) →
        fs' = fs) := by
  simp only [mainRun] at h
  cases houtcome : (fetch_with_retries client retries backoff).outcome with
  | error e =>
      rw [houtcome] at h
      simp only [Prod.mk.injEq] at h
      obtain ⟨rfl, rfl⟩ := h
      refine ⟨by simp, ?_, fun _ p => Or.inl rfl, fun _ => rfl⟩
      intro page hp
      simp at hp
  | ok page =>
      rw [houtcome] at h
      obtain ⟨m, j, c⟩ := env
      cases m with
      | false =>
          simp only [Bool.false_eq_true, if_false, Prod.mk.injEq] at h
          obtain ⟨rfl, rfl⟩ := h
          refine ⟨by simp, ?_, fun _ p => Or.inl rfl, fun hall => absurd rfl (hall page)⟩
          intro page' hp' hs
          simp at hs
      | true =>
          cases j with
          | false =>
              simp only [Bool.false_eq_true, if_false, if_true, Prod.mk.injEq] at h
              obtain ⟨rfl, rfl⟩ := h
              refine ⟨by simp, ?_, fun _ p => Or.inl rfl,
                fun hall => absurd rfl (hall page)⟩
              intro page' hp' hs
              simp at hs
          | true =>
              cases c with
              | false =>
                  simp only [Bool.false_eq_true, if_false, if_true, Prod.mk.injEq] at h
                  obtain ⟨rfl, rfl⟩ := h
                  refine ⟨by simp, ?_, ?_, fun hall => absurd rfl (hall page)⟩
                  · intro page' hp' hs
                    simp at hs
                  · intro _ p
                    by_cases hp : p = output_path
                    · exact Or.inr ⟨page, rfl, hp, by simp [FS.write, hp]⟩
                    · exact Or.inl (by simp [FS.write, hp])
              | true =>
                  simp only [if_true, Prod.mk.injEq] at h
                  obtain ⟨rfl, rfl⟩ := h
                  refine ⟨by simp, ?_, ?_, fun hall => absurd rfl (hall page)⟩
                  · intro page' hp' hs
                    simp only [Except.ok.injEq] at hp'
                    subst hp'
                    refine ⟨by simp [FS.write], ?_⟩
                    intro hneq
                    simp [FS.write, hneq]
                  · intro hfail
                    simp at hfail

/-- Client that always serves the one-card page at once. -/
def clientOnePage : ℕ → FetchOutcome := fun _ => .success pageOneCard

/-- Environment in which every I/O step succeeds. -/
def envAllOk : WriteEnv := ⟨true, true, true⟩

/-- Empty file store. -/
def fsEmpty : FS := fun _ => none

/-- Witness for C5 on a concrete successful run. -/
theorem C5_persist_all_or_surfaced_witness :
    (mainRun clientOnePage 0 0 none (("T").toList) (("U").toList) envAllOk
        OUTPUT_PATH fsEmpty).1 = RunExit.success
      ↔ (∃ page, (fetch_with_retries clientOnePage 0 0).outcome = .ok page)
        ∧ envAllOk.mkdirOk = true ∧ envAllOk.jsonOk = true ∧ envAllOk.csvOk = true :=
  (C5_persist_all_or_surfaced clientOnePage 0 0 none (("T").toList) (("U").toList) envAllOk
    OUTPUT_PATH fsEmpty _ _ Prod.mk.eta.symm).1

/-- Spec-side CSV rendering: lines joined with the CSV line terminator. -/
def csvJoin (lines : List PyStr) : PyStr :=
  (lines.map (fun l => l ++ crlf)).flatten

lemma csvText_eq_join (ds : List Deal) :
    csvText ds = csvJoin (csvHeaderRow :: ds.map csvRow) := by
  simp [csvText, csvJoin, List.map_map, Function.comp_def]

lemma with_suffix_csv_json (dir stem : PyStr) (hne : stem ≠ [])
    (hch : ∀ c ∈ stem, c ≠ '.' ∧ c ≠ '/') :
    with_suffix_csv (dir ++ '/' :: (stem ++ (".json").toList))
      = dir ++ '/' :: (stem ++ (".csv").toList) := by
  have hrev : (dir ++ '/' :: (stem ++ (".json").toList)).reverse
      = (['n', 'o', 's', 'j'] ++ '.' :: stem.reverse) ++ '/' :: dir.reverse := by
    simp [List.reverse_append]
  have hslash : ∀ c ∈ ['n', 'o', 's', 'j'] ++ '.' :: stem.reverse,
      (decide (c ≠ '/')) = true := by
    intro c hc
    rcases List.mem_append.mp hc with hc | hc
    · fin_cases hc <;> decide
    · rcases List.mem_cons.mp hc with rfl | hc
      · decide
      · simpa using (hch c (List.mem_reverse.mp hc)).2
  have htake : ((dir ++ '/' :: (stem ++ (".json").toList)).reverse).takeWhile
        (fun c => c ≠ '/') = ['n', 'o', 's', 'j'] ++ '.' :: stem.reverse := by
    rw [hrev]
    exact takeWhile_append_of_all _ _ hslash
      (by rw [List.takeWhile_cons, if_neg (by decide)])
  have hdrop : ((dir ++ '/' :: (stem ++ (".json").toList)).reverse).dropWhile
        (fun c => c ≠ '/') = '/' :: dir.reverse := by
    rw [hrev]
    exact dropWhile_append_of_all _ _ hslash
      (by rw [List.dropWhile_cons, if_neg (by decide)])
  have hjson : (['.', 'j', 's', 'o', 'n'] : PyStr) = (".json").toList := by decide
  have hname : (nameSplit (dir ++ '/' :: (stem ++ (".json").toList))).2
      = stem ++ (".json").toList := by
    show ((dir ++ '/' :: (stem ++ (".json").toList)).reverse.takeWhile
      (fun c => c ≠ '/')).reverse = stem ++ (".json").toList
    rw [htake, ← hjson]
    simp [List.reverse_append]
  have hdir : (nameSplit (dir ++ '/' :: (stem ++ (".json").toList))).1
      = dir ++ ['/'] := by
    show ((dir ++ '/' :: (stem ++ (".json").toList)).reverse.dropWhile
      (fun c => c ≠ '/')).reverse = dir ++ ['/']
    rw [hdrop]
    simp
  have hnrev : (stem ++ (".json").toList).reverse
      = ['n', 'o', 's', 'j'] ++ '.' :: stem.reverse := by
    rw [← hjson]
    simp [List.reverse_append]
  have hndot : ∀ c ∈ (['n', 'o', 's', 'j'] : PyStr), (decide (c ≠ '.')) = true := by
    intro c hc
    fin_cases hc <;> decide
  have hdrop2 : (stem ++ (".json").toList).reverse.dropWhile (fun c => c ≠ '.')
      = '.' :: stem.reverse := by
    rw [hnrev]
    exact dropWhile_append_of_all _ _ hndot
      (by rw [List.dropWhile_cons, if_neg (by decide)])
  have htake2 : (stem ++ (".json").toList).reverse.takeWhile (fun c => c ≠ '.')
      = ['n', 'o', 's', 'j'] := by
    rw [hnrev]
    exact takeWhile_append_of_all _ _ hndot
      (by rw [List.takeWhile_cons, if_neg (by decide)])
  have hstem : dropDotSuffix (stem ++ (".json").toList) = stem := by
    unfold dropDotSuffix
    rw [hdrop2, htake2]
    show (if (['n', 'o', 's', 'j'] : PyStr) = [] then stem ++ (".json").toList
      else if stem.reverse = [] then stem ++ (".json").toList
      else stem.reverse.reverse) = stem
    rw [if_neg (by decide), if_neg (by simpa using hne)]
    simp
  unfold with_suffix_csv
  rw [hname, hdir, hstem]
  simp

/-- C9: on a successful run the tabular sidecar is written at the path
derived from the primary path by swapping the final suffix for `.csv`
(same base name), and its content is exactly the header row
`title,price,discount,url,scraped_at` followed by one CSV row per entry of
the payload's full `deals` sequence, in order — not the `penny_deals`
sequence. -/
theorem C9_csv_sidecar (client : ℕ → FetchOutcome) (retries : ℕ) (backoff : ℚ)
    (store : Option PyStr) (record_ts payload_ts : PyStr) (env : WriteEnv)
    (output_path : PyStr) (fs : FS) (ex : RunExit) (fs' : FS) (page : PageModel)
    (h : mainRun client retries backoff store record_ts payload_ts env output_path fs
      = (ex, fs'))
    (hfetch : (fetch_with_retries client retries backoff).outcome = .ok page)
    (hm : env.mkdirOk = true) (hj : env.jsonOk = true) (hc : env.csvOk = true) :
    ex = .success
    ∧ fs' (with_suffix_csv output_path)
        = some (.textData (csvJoin (csvHeaderRow ::
            ((mkPayload payload_ts (build_url store)
              (extractDeals page record_ts)).deals.map csvRow))))
    ∧ csvHeaderRow = ("title,price,discount,url,scraped_at").toList
    ∧ (∀ dir stem, stem ≠ [] → (∀ c ∈ stem, c ≠ '.' ∧ c ≠ '/') →
        with_suffix_csv (dir ++ '/' :: (stem ++ (".json").toList))
          = dir ++ '/' :: (stem ++ (".csv").toList)) := by
  simp only [mainRun] at h
  rw [hfetch] at h
  obtain ⟨m, j, c⟩ := env
  simp only at hm hj hc
  subst hm hj hc
  simp only [if_true, Prod.mk.injEq] at h
  obtain ⟨rfl, rfl⟩ := h
  refine ⟨rfl, ?_, rfl, with_suffix_csv_json⟩
  simp [FS.write, csvText_eq_join, mkPayload]

/-- Witness for C9 on a concrete successful run over the one-card page. -/
theorem C9_csv_sidecar_witness :
    (mainRun clientOnePage 0 0 none (("T").toList) (("U").toList) envAllOk
        OUTPUT_PATH fsEmpty).2 (with_suffix_csv OUTPUT_PATH)
      = some (.textData (csvJoin (csvHeaderRow ::
          ((mkPayload (("U").toList) (build_url none)
            (extractDeals pageOneCard (("T").toList))).deals.map csvRow)))) :=
  (C9_csv_sidecar clientOnePage 0 0 none (("T").toList) (("U").toList) envAllOk
    OUTPUT_PATH fsEmpty _ _ pageOneCard Prod.mk.eta.symm rfl rfl rfl rfl).2.1
